import Mathlib

/-!
Verification of the qsimforb92 quantum-key-distribution simulator core.

This file gives a shallow embedding, in Lean 4, of the algorithmic core of the
repository: the BB84 student host (src/student_bb84_impl.py), the B92 student
host (src/student_b92_impl.py), the quantum channel
(src/quantum_network/channel.py) and the B92 world event manager
(src/qsimforb92/core/world_b92.py).  Randomness in the Python source
(random.randint, random.choice, random.random) is made explicit: every random
draw becomes an input of the embedded function, so each Python method becomes a
pure Lean function of its inputs and of the random stream it consumes.
Host and manager objects become structures that are passed and returned
explicitly.  Theorems at the end of the file settle the specification claims.
-/

namespace QSim

/-- Quantum states exchanged between the hosts.  The Python source represents
them as the literal strings "|0⟩", "|1⟩", "|+⟩", "|-⟩" (BB84 host) and
"|0>", "|+>" (B92 host); the closed enum covers exactly the four named kets. -/
inductive QState where
  | zero
  | one
  | plus
  | minus
deriving DecidableEq, Repr, Fintype

/-- Measurement bases.  The BB84 host encodes them as the ints 0 (rectilinear,
Z) and 1 (diagonal, X); the B92 host as the strings "Z" and "X". -/
inductive Basis where
  | Z
  | X
deriving DecidableEq, Repr, Fintype

/-- Value of a random coin as the bit the Python code stores: random.randint(0, 1)
and random.choice([0, 1]) produce 0 or 1. -/
def coinBit (c : Bool) : Nat := if c then 1 else 0

/-- Measurement branch of StudentQuantumHost.process_received_qbit
(src/student_bb84_impl.py lines 142-166): given the received qubit, the chosen
measurement basis (the random draw randint(0,1), 0 = Z, 1 = X) and the coin
consumed by the non-deterministic outcomes (randint(0,1)), return the outcome.
The source's trailing else-branches handle unrecognized strings, which the
closed QState enum makes unrepresentable. -/
def bb84_measure (qbit : QState) (basis : Basis) (coin : Bool) : Nat :=
  match basis with
  | .Z =>
    match qbit with
    | .zero => 0
    | .one => 1
    | .plus => coinBit coin
    | .minus => coinBit coin
  | .X =>
    match qbit with
    | .plus => 0
    | .minus => 1
    | .zero => coinBit coin
    | .one => coinBit coin

/-- Preparation branch of StudentQuantumHost.bb84_send_qubits
(src/student_bb84_impl.py lines 87-96): encode a classical bit in the chosen
preparation basis. -/
def bb84_prepare (bit : Nat) (basis : Basis) : QState :=
  match basis with
  | .Z => if bit = 0 then .zero else .one
  | .X => if bit = 0 then .plus else .minus

/-- Per-host mutable record of StudentQuantumHost (src/student_bb84_impl.py
constructor, lines 25-43): all five collections start empty. -/
structure StudentQuantumHost where
  random_bits : List Nat
  measurement_bases : List Basis
  quantum_states : List QState
  received_bases : List Basis
  measurement_outcomes : List Nat
deriving DecidableEq, Repr

/-- Freshly constructed BB84 host: every collection starts empty. -/
def StudentQuantumHost.init : StudentQuantumHost :=
  { random_bits := []
    measurement_bases := []
    quantum_states := []
    received_bases := []
    measurement_outcomes := [] }

/-- StudentQuantumHost.bb84_send_qubits (src/student_bb84_impl.py lines 58-111).
The random stream is the list of draws, one (classical bit, preparation basis)
pair per qubit.  The method reinitializes random_bits, measurement_bases and
quantum_states, but does not touch received_bases or measurement_outcomes. -/
def bb84_send_qubits (host : StudentQuantumHost) (draws : List (Bool × Basis)) :
    StudentQuantumHost × List QState :=
  let bits := draws.map (fun d => coinBit d.1)
  let bases := draws.map (fun d => d.2)
  let states := draws.map (fun d => bb84_prepare (coinBit d.1) d.2)
  ({ host with
      random_bits := bits
      measurement_bases := bases
      quantum_states := states }, states)

/-- StudentQuantumHost.process_received_qbit (src/student_bb84_impl.py lines
122-172): draw a measurement basis, record it, measure, record the outcome,
return True. -/
def process_received_qbit (host : StudentQuantumHost) (qbit : QState)
    (basis : Basis) (coin : Bool) : StudentQuantumHost × Bool :=
  ({ host with
      received_bases := host.received_bases ++ [basis]
      measurement_outcomes :=
        host.measurement_outcomes ++ [bb84_measure qbit basis coin] }, true)

/-- Receiver loop of the BB84 demo (src/student_bb84_impl.py lines 330-331):
process each received qubit in order, consuming one (basis, coin) draw each. -/
def process_received_list (host : StudentQuantumHost) (qs : List QState)
    (draws : List (Basis × Bool)) : StudentQuantumHost :=
  match qs, draws with
  | q :: qs', d :: ds => process_received_list (process_received_qbit host q d.1 d.2).1 qs' ds
  | _, _ => host

/-- StudentB92Host.b92_prepare_qubit (src/student_b92_impl.py lines 42-61):
bit 0 prepares the zero ket, bit 1 the plus ket, anything else raises
ValueError (modelled as none). -/
def b92_prepare_qubit (bit : Nat) : Option QState :=
  if bit = 0 then some .zero
  else if bit = 1 then some .plus
  else none

/-- StudentB92Host.b92_measure_qubit (src/student_b92_impl.py lines 72-99):
the basis input is the random.choice(["Z","X"]) draw, the coin is the
random.choice([0,1]) draw consumed in the non-deterministic branches.  States
other than the two B92 kets fall through to ValueError (none). -/
def b92_measure_qubit (qubit : QState) (basis : Basis) (coin : Bool) :
    Option (Nat × Basis) :=
  match basis with
  | .Z =>
    match qubit with
    | .zero => some (0, .Z)
    | .plus => some (coinBit coin, .Z)
    | _ => none
  | .X =>
    match qubit with
    | .plus => some (0, .X)
    | .zero => some (coinBit coin, .X)
    | _ => none

/-- Per-host mutable record of StudentB92Host (src/student_b92_impl.py
constructor, lines 22-36): all seven collections start empty. -/
structure StudentB92Host where
  sent_bits : List Nat
  qubits : List QState
  received_measurements : List (Nat × Basis)
  sifted_key : List Nat
  random_bits : List Nat
  measurement_outcomes : List Nat
  received_bases : List Basis
deriving DecidableEq, Repr

/-- Freshly constructed B92 host: every collection starts empty. -/
def StudentB92Host.init : StudentB92Host :=
  { sent_bits := []
    qubits := []
    received_measurements := []
    sifted_key := []
    random_bits := []
    measurement_outcomes := []
    received_bases := [] }

/-- Loop body accumulation of StudentB92Host.b92_sifting
(src/student_b92_impl.py lines 122-137), over the zipped
(sent bit, (outcome, basis)) pairs, producing (sifted_sender, sifted_receiver)
in iteration order. -/
def b92_sift_pairs : List (Nat × (Nat × Basis)) → List Nat × List Nat
  | [] => ([], [])
  | p :: rest =>
    let tail := b92_sift_pairs rest
    if p.2.1 = 1 then
      match p.2.2 with
      | .Z => if p.1 = 1 then (1 :: tail.1, 1 :: tail.2) else tail
      | .X => if p.1 = 0 then (0 :: tail.1, 0 :: tail.2) else tail
    else tail

/-- StudentB92Host.b92_sifting (src/student_b92_impl.py lines 106-140):
iterate over zip(sent_bits, received_measurements), keep conclusive entries,
store sifted_receiver into self.sifted_key, and return the pair of sifted
lists. -/
def b92_sifting (host : StudentB92Host) (sent_bits : List Nat)
    (received_measurements : List (Nat × Basis)) :
    StudentB92Host × (List Nat × List Nat) :=
  let r := b92_sift_pairs (sent_bits.zip received_measurements)
  ({ host with sifted_key := r.2 }, r)

/-- StudentB92Host.b92_send_qubits (src/student_b92_impl.py lines 145-158):
generate the random bits (the draws input), store them in sent_bits and (as a
copy) in random_bits, prepare the qubits with b92_prepare_qubit and store
them; the other four collections are not touched.  The Option propagates
b92_prepare_qubit's ValueError, which cannot fire on randint(0,1) bits. -/
def b92_send_qubits (host : StudentB92Host) (draws : List Bool) :
    Option (StudentB92Host × List QState) :=
  let bits := draws.map coinBit
  (bits.mapM b92_prepare_qubit).map (fun qs =>
    ({ host with
        sent_bits := bits
        random_bits := bits
        qubits := qs }, qs))

/-- StudentB92Host.b92_process_received_qbit (src/student_b92_impl.py lines
163-178): measure with b92_measure_qubit, append the (outcome, basis) pair,
the outcome, and the basis to the three receiver collections, return True.
The Option propagates a ValueError from a non-B92 state. -/
def b92_process_received_qbit (host : StudentB92Host) (qbit : QState)
    (basis : Basis) (coin : Bool) : Option (StudentB92Host × Bool) :=
  (b92_measure_qubit qbit basis coin).map (fun ob =>
    ({ host with
        received_measurements := host.received_measurements ++ [ob]
        measurement_outcomes := host.measurement_outcomes ++ [ob.1]
        received_bases := host.received_bases ++ [ob.2] }, true))

/-- StudentQuantumHost.bb84_estimate_error_rate (src/student_bb84_impl.py
lines 245-302).  The loop walks zip(sample_positions, reference_bits) keeping
an (error_count, comparison_count) accumulator; a position is compared against
measurement_outcomes when in range, otherwise against random_bits when in
range; the result is errors divided by comparisons, 0.0 when no comparison was
made.  Real-valued division is modelled exactly on the rationals. -/
def bb84_estimate_error_rate (host : StudentQuantumHost)
    (sample_positions : List Nat) (reference_bits : List Nat) : ℚ :=
  let step := fun (acc : Nat × Nat) (pr : Nat × Nat) =>
    if pr.1 < host.measurement_outcomes.length then
      ((if host.measurement_outcomes.getD pr.1 0 ≠ pr.2 then acc.1 + 1 else acc.1),
        acc.2 + 1)
    else if pr.1 < host.random_bits.length then
      ((if host.random_bits.getD pr.1 0 ≠ pr.2 then acc.1 + 1 else acc.1),
        acc.2 + 1)
    else acc
  let ec := (sample_positions.zip reference_bits).foldl step (0, 0)
  if 0 < ec.2 then (ec.1 : ℚ) / (ec.2 : ℚ) else 0

/-- StudentB92Host.b92_estimate_error_rate (src/student_b92_impl.py lines
185-208).  Empty sample_positions or reference_bits return 0.0 immediately;
otherwise the loop walks zip(sample_positions, reference_bits), comparing
positions that are in range of the host's sifted_key, and returns errors
divided by comparisons, 0.0 when no comparison was made. -/
def b92_estimate_error_rate (host : StudentB92Host)
    (sample_positions : List Nat) (reference_bits : List Nat) : ℚ :=
  if sample_positions = [] ∨ reference_bits = [] then 0
  else
    let step := fun (acc : Nat × Nat) (pr : Nat × Nat) =>
      if pr.1 < host.sifted_key.length then
        ((if host.sifted_key.getD pr.1 0 ≠ pr.2 then acc.1 + 1 else acc.1),
          acc.2 + 1)
      else acc
    let ec := (sample_positions.zip reference_bits).foldl step (0, 0)
    if 0 < ec.2 then (ec.1 : ℚ) / (ec.2 : ℚ) else 0

/-- QuantumChannel state (src/quantum_network/channel.py lines 21-43).  The
two endpoint nodes are identified by ids; the numeric float parameters are
modelled on the rationals.  The constructor stores every parameter verbatim
and performs no validation. -/
structure QuantumChannel where
  node_1 : Nat
  node_2 : Nat
  length : ℚ
  loss_per_km : ℚ
  noise_model : String
  noise_strength : ℚ
  error_rate_threshold : ℚ
  num_bits : Nat
deriving DecidableEq, Repr

/-- QuantumChannel.__init__ (src/quantum_network/channel.py lines 22-43): the
body only assigns the arguments to the corresponding attributes; there is no
range check on loss_per_km or length and no raise statement. -/
def quantum_channel_init (node_1 node_2 : Nat) (length loss_per_km : ℚ)
    (noise_model : String) (noise_strength : ℚ := 1 / 100)
    (error_rate_threshold : ℚ := 10) (num_bits : Nat := 16) : QuantumChannel :=
  { node_1 := node_1
    node_2 := node_2
    length := length
    loss_per_km := loss_per_km
    noise_model := noise_model
    noise_strength := noise_strength
    error_rate_threshold := error_rate_threshold
    num_bits := num_bits }

/-- Loss probability computed inside QuantumChannel.transmit_qubit
(src/quantum_network/channel.py line 59): 1 - (1 - loss_per_km) ** length_km,
with the float power modelled as the real power. -/
noncomputable def channel_loss_prob (c : QuantumChannel) : ℝ :=
  1 - (1 - (c.loss_per_km : ℝ)) ^ (c.length : ℝ)

/-- Peer-selection expression of QuantumChannel.transmit_qubit
(src/quantum_network/channel.py line 80) and QuantumChannel.get_other_node. -/
def channel_other_node (c : QuantumChannel) (from_node : Nat) : Nat :=
  if c.node_1 = from_node then c.node_2 else c.node_1

/-- QuantumChannel.apply_noise (src/quantum_network/channel.py lines 128-154)
restricted to the qubits this repository actually transmits: the student hosts
exchange string-encoded states (QState here), which are not QuTiP Qobj values,
so apply_noise hits its isinstance guard and returns the qubit unchanged; the
Kraus-operator branches only ever run on Qobj inputs. -/
def channel_apply_noise (_c : QuantumChannel) (qubit : QState) : QState :=
  qubit

/-- Outcome of one QuantumChannel.transmit_qubit call: either QubitLossError
is raised, or the (possibly noise-processed) qubit is delivered to
to_node.receive_qubit. -/
inductive TransmitResult where
  | lost
  | delivered (to_node : Nat) (qubit : QState)
deriving DecidableEq, Repr

/-- Step relation for QuantumChannel.transmit_qubit (src/quantum_network/
channel.py lines 51-82).  qt_available models whether the qutip import at
module top succeeded; r is the random.random() draw.  When the noise model is
the string "none" or QuTiP is unavailable, the code takes the else branch:
no loss sampling, no noise, direct delivery.  Otherwise the qubit is lost
exactly when r < loss_prob, and delivered after apply_noise otherwise. -/
inductive TransmitStep (qt_available : Bool) (c : QuantumChannel)
    (from_node : Nat) (qubit : QState) (r : ℝ) : TransmitResult → Prop where
  | no_noise_path :
      c.noise_model = "none" ∨ qt_available = false →
      TransmitStep qt_available c from_node qubit r
        (.delivered (channel_other_node c from_node) qubit)
  | qubit_lost :
      c.noise_model ≠ "none" → qt_available = true →
      r < channel_loss_prob c →
      TransmitStep qt_available c from_node qubit r .lost
  | noisy_delivered :
      c.noise_model ≠ "none" → qt_available = true →
      ¬ r < channel_loss_prob c →
      TransmitStep qt_available c from_node qubit r
        (.delivered (channel_other_node c from_node)
          (channel_apply_noise c qubit))

/-- B92WorldEventManager state (src/qsimforb92/core/world_b92.py lines 17-21),
polymorphic in the listener handle type L and the event type α (the manager
never inspects a B92Event).  max_history_size is initialized to 1000. -/
structure B92WorldEventManager (L : Type) (α : Type) where
  event_listeners : List L
  event_history : List α
  max_history_size : Nat
deriving DecidableEq, Repr

/-- Freshly constructed manager (world_b92.py constructor): no listeners,
empty history, max_history_size 1000. -/
def B92WorldEventManager.init (L α : Type) : B92WorldEventManager L α :=
  { event_listeners := []
    event_history := []
    max_history_size := 1000 }

/-- History-update half of B92WorldEventManager.emit_b92_event
(src/qsimforb92/core/world_b92.py lines 32-37): append the event, then pop the
single oldest entry when the length exceeds max_history_size. -/
def emit_history (hist : List α) (maxH : Nat) (e : α) : List α :=
  let h := hist ++ [e]
  if maxH < h.length then h.tail else h

/-- B92WorldEventManager.emit_b92_event (src/qsimforb92/core/world_b92.py
lines 32-44).  run gives each listener's behaviour on an event: ok for a
normal return, error for a raised exception.  The loop invokes every current
listener in order inside try/except; an exception is caught and printed (the
some entries of the returned log) and the loop continues; the listener list
itself is not modified. -/
def emit_b92_event (run : L → α → Except String Unit)
    (m : B92WorldEventManager L α) (e : α) :
    B92WorldEventManager L α × List (L × Option String) :=
  let log := m.event_listeners.map (fun l =>
    (l, match run l e with
        | .ok _ => none
        | .error msg => some msg))
  ({ m with event_history := emit_history m.event_history m.max_history_size e },
    log)

/-- B92WorldEventManager.get_recent_events (src/qsimforb92/core/world_b92.py
lines 63-65): the Python slice event_history[-count:] guarded by an emptiness
check.  For count = 0 the slice [-0:] is [0:], the whole list; for count ≥ 1
it is the last count elements. -/
def get_recent_events (m : B92WorldEventManager L α) (count : Nat) : List α :=
  if m.event_history.isEmpty then []
  else if count = 0 then m.event_history
  else m.event_history.drop (m.event_history.length - count)

/-- Modelled from the spec (§4.1 Born-rule table): the (state, basis) pairs
whose measurement outcome is uniform over 0 and 1 rather than certain. -/
abbrev non_orthogonal (q : QState) (b : Basis) : Prop :=
  (b = .Z ∧ (q = .plus ∨ q = .minus)) ∨ (b = .X ∧ (q = .zero ∨ q = .one))

/-- Modelled from the spec (§4.4 decoding rule): the bit implied by a
conclusive outcome-1 B92 measurement in the given basis (Z implies the sender
sent plus, bit 1; X implies the sender sent zero, bit 0). -/
def b92_implied_bit : Basis → Nat
  | .Z => 1
  | .X => 0

/-- Modelled from the spec (§4.4): an entry survives B92 sifting iff its
outcome is 1 and the claimed sent bit agrees with the implied bit. -/
def b92_conclusive_keep (pr : Nat × (Nat × Basis)) : Bool :=
  decide (pr.2.1 = 1) && decide (pr.1 = b92_implied_bit pr.2.2)

lemma bb84_roundtrip_bit (b : Bool) (basis : Basis) (coin : Bool) :
    bb84_measure (bb84_prepare (coinBit b) basis) basis coin = coinBit b := by
  cases b <;> cases basis <;> cases coin <;> rfl

lemma process_received_list_outcomes (qs : List QState)
    (draws : List (Basis × Bool)) (host : StudentQuantumHost) :
    (process_received_list host qs draws).measurement_outcomes
      = host.measurement_outcomes
          ++ (qs.zip draws).map (fun p => bb84_measure p.1 p.2.1 p.2.2) := by
  induction qs generalizing draws host with
  | nil => simp [process_received_list]
  | cons q qs' ih =>
    cases draws with
    | nil => simp [process_received_list]
    | cons d ds =>
      simp [process_received_list, process_received_qbit, ih]

lemma getElem?_zip_map {A B G : Type} (g : A × B → G) :
    ∀ (xs : List A) (ys : List B) (i : Nat) (a : A) (b : B),
      xs[i]? = some a → ys[i]? = some b →
      ((xs.zip ys).map g)[i]? = some (g (a, b)) := by
  intro xs
  induction xs with
  | nil => intro ys i a b h _; simp at h
  | cons x xs' ih =>
    intro ys i a b hx hy
    cases ys with
    | nil => simp at hy
    | cons y ys' =>
      cases i with
      | zero =>
        simp only [List.getElem?_cons_zero, Option.some_inj] at hx hy
        simp [List.zip_cons_cons, hx, hy]
      | succ n =>
        simp only [List.getElem?_cons_succ] at hx hy
        simpa [List.zip_cons_cons] using ih ys' n a b hx hy

/-- Claim C1 — for every received state in the four named kets and every
measurement basis, the outcome is a bit that follows the Born-rule table:
Zero in Z gives 0 and One in Z gives 1 with certainty, Plus in X gives 0 and
Minus in X gives 1 with certainty, and every non-orthogonal (state, basis)
pair returns exactly the fresh uniform coin it consumes — so both outcomes
occur and no fixed value is returned.  The same holds of the B92 host's
b92_measure_qubit, restricted to its two states (conclusive rows certain,
non-orthogonal rows equal to the consumed coin, outcome always a bit). -/
theorem measurement_follows_born_rule_table :
    (∀ (q : QState) (b : Basis) (coin : Bool),
      bb84_measure q b coin = 0 ∨ bb84_measure q b coin = 1)
    ∧ (∀ coin, bb84_measure .zero .Z coin = 0)
    ∧ (∀ coin, bb84_measure .one .Z coin = 1)
    ∧ (∀ coin, bb84_measure .plus .X coin = 0)
    ∧ (∀ coin, bb84_measure .minus .X coin = 1)
    ∧ (∀ (q : QState) (b : Basis), non_orthogonal q b →
        ∀ coin, bb84_measure q b coin = coinBit coin)
    ∧ (∀ (q : QState) (b : Basis), non_orthogonal q b →
        (∃ c, bb84_measure q b c = 0) ∧ (∃ c, bb84_measure q b c = 1))
    ∧ (∀ coin, b92_measure_qubit .zero .Z coin = some (0, .Z))
    ∧ (∀ coin, b92_measure_qubit .plus .X coin = some (0, .X))
    ∧ (∀ coin, b92_measure_qubit .plus .Z coin = some (coinBit coin, .Z))
    ∧ (∀ coin, b92_measure_qubit .zero .X coin = some (coinBit coin, .X))
    ∧ (∀ (q : QState) (b : Basis) (coin : Bool) (o : Nat) (b' : Basis),
        b92_measure_qubit q b coin = some (o, b') → o = 0 ∨ o = 1) := by
  refine ⟨?_, ?_, ?_, ?_, ?_, ?_, ?_, ?_, ?_, ?_, ?_, ?_⟩
  case _ => decide
  case _ => decide
  case _ => decide
  case _ => decide
  case _ => decide
  case _ => decide
  case _ => decide
  case _ => decide
  case _ => decide
  case _ => decide
  case _ => decide
  intro q b coin o b' h
  cases q <;> cases b <;> cases coin <;> simp_all [b92_measure_qubit, coinBit]

/-- Witness for C1: the Plus state measured in the Z basis is non-orthogonal
and returns the consumed coin, evaluated at coin = true. -/
theorem measurement_follows_born_rule_table_witness :
    bb84_measure .plus .Z true = coinBit true :=
  measurement_follows_born_rule_table.2.2.2.2.2.1 .plus .Z (by decide) true

/-- Claim C4 — BB84 round trip with no noise: if the sender prepares index i
with the same basis the receiver measures it in, the receiver's recorded
outcome at i equals the sender's stored random bit at i, whatever the coin
stream does elsewhere.  The sender's preparation is bb84_send_qubits, the
receiver processes the prepared states in order from a fresh outcome record. -/
theorem bb84_matching_basis_roundtrip
    (alice bob : StudentQuantumHost)
    (hfresh : bob.measurement_outcomes = [])
    (draws : List (Bool × Basis)) (rdraws : List (Basis × Bool))
    (i : Nat) (bit : Bool) (basis : Basis) (coin : Bool)
    (hs : draws[i]? = some (bit, basis))
    (hr : rdraws[i]? = some (basis, coin)) :
    (process_received_list bob (bb84_send_qubits alice draws).2 rdraws).measurement_outcomes[i]?
        = some (coinBit bit)
    ∧ (bb84_send_qubits alice draws).1.random_bits[i]? = some (coinBit bit) := by
  constructor
  · rw [process_received_list_outcomes, hfresh, List.nil_append]
    have hq : (bb84_send_qubits alice draws).2[i]?
        = some (bb84_prepare (coinBit bit) basis) := by
      show (draws.map (fun d => bb84_prepare (coinBit d.1) d.2))[i]? = _
      rw [List.getElem?_map, hs]
      rfl
    have := getElem?_zip_map (fun p => bb84_measure p.1 p.2.1 p.2.2)
      (bb84_send_qubits alice draws).2 rdraws i
      (bb84_prepare (coinBit bit) basis) (basis, coin) hq hr
    rw [this]
    exact congrArg some (bb84_roundtrip_bit bit basis coin)
  · show (draws.map (fun d => coinBit d.1))[i]? = _
    rw [List.getElem?_map, hs]
    rfl

/-- Witness for C4: one qubit, bit 1 prepared and measured in the X basis,
round-trips to outcome 1 for both parties' records. -/
theorem bb84_matching_basis_roundtrip_witness :
    (process_received_list .init
        (bb84_send_qubits .init [(true, .X)]).2 [(.X, false)]).measurement_outcomes[0]?
      = some 1
    ∧ (bb84_send_qubits .init [(true, .X)]).1.random_bits[0]? = some 1 :=
  bb84_matching_basis_roundtrip .init .init rfl [(true, .X)] [(.X, false)]
    0 true .X false rfl rfl

lemma b92_sift_pairs_eq (l : List (Nat × (Nat × Basis))) :
    b92_sift_pairs l
      = ((l.filter b92_conclusive_keep).map (fun pr => b92_implied_bit pr.2.2),
         (l.filter b92_conclusive_keep).map (fun pr => b92_implied_bit pr.2.2)) := by
  induction l with
  | nil => rfl
  | cons p rest ih =>
    rcases p with ⟨sb, o, b⟩
    by_cases ho : o = 1
    · cases b
      · by_cases hsb : sb = 1 <;>
          simp [b92_sift_pairs, ih, List.filter_cons, b92_conclusive_keep,
            b92_implied_bit, ho, hsb]
      · by_cases hsb : sb = 0 <;>
          simp [b92_sift_pairs, ih, List.filter_cons, b92_conclusive_keep,
            b92_implied_bit, ho, hsb]
    · simp [b92_sift_pairs, ih, List.filter_cons, b92_conclusive_keep, ho]

/-- Claim C2 — B92 sifting keeps an entry of zip(sent_bits,
received_measurements) exactly when its outcome is 1 and the claimed sent bit
agrees with the implied bit, and each kept entry contributes that implied bit:
1 for a Z-basis outcome-1 entry and 0 for an X-basis one.  Entries with
outcome 0, and outcome-1 entries whose sent bit disagrees, are discarded and
contribute nothing — the sifted lists are exactly the filter-then-decode of
the conclusive entries. -/
theorem b92_sifting_keeps_only_conclusive (host : StudentB92Host)
    (sent_bits : List Nat) (received_measurements : List (Nat × Basis)) :
    (b92_sifting host sent_bits received_measurements).2.2
      = ((sent_bits.zip received_measurements).filter b92_conclusive_keep).map
          (fun pr => b92_implied_bit pr.2.2)
    ∧ (b92_sifting host sent_bits received_measurements).2.1
      = ((sent_bits.zip received_measurements).filter b92_conclusive_keep).map
          (fun pr => b92_implied_bit pr.2.2) := by
  constructor <;> simp [b92_sifting, b92_sift_pairs_eq]

/-- Claim C10 — the two lists b92_sifting returns are equal element-by-element
(every kept position appends the same bit to both), so the sifted keys this
function produces for the two parties can never disagree; and the receiver
list is what is stored into the host's sifted_key field. -/
theorem b92_sifting_keys_agree (host : StudentB92Host)
    (sent_bits : List Nat) (received_measurements : List (Nat × Basis)) :
    (b92_sifting host sent_bits received_measurements).2.1
      = (b92_sifting host sent_bits received_measurements).2.2
    ∧ (b92_sifting host sent_bits received_measurements).1.sifted_key
      = (b92_sifting host sent_bits received_measurements).2.2 := by
  constructor
  · simp [b92_sifting, b92_sift_pairs_eq]
  · rfl

/-- Sampled position that has a recorded value on the BB84 host: in range of
measurement_outcomes (receiver role) or of random_bits (sender role). -/
def bb84_comparable (host : StudentQuantumHost) (pr : Nat × Nat) : Bool :=
  decide (pr.1 < host.measurement_outcomes.length)
    || decide (pr.1 < host.random_bits.length)

/-- Sampled (position, reference) pair counted as an error by the BB84 host:
the recorded value at the position differs from the reference bit. -/
def bb84_mismatch (host : StudentQuantumHost) (pr : Nat × Nat) : Bool :=
  if pr.1 < host.measurement_outcomes.length then
    decide (host.measurement_outcomes.getD pr.1 0 ≠ pr.2)
  else if pr.1 < host.random_bits.length then
    decide (host.random_bits.getD pr.1 0 ≠ pr.2)
  else false

/-- Sampled position that has a recorded value on the B92 host: in range of
the sifted key. -/
def b92_comparable (host : StudentB92Host) (pr : Nat × Nat) : Bool :=
  decide (pr.1 < host.sifted_key.length)

/-- Sampled (position, reference) pair counted as an error by the B92 host. -/
def b92_mismatch (host : StudentB92Host) (pr : Nat × Nat) : Bool :=
  decide (pr.1 < host.sifted_key.length)
    && decide (host.sifted_key.getD pr.1 0 ≠ pr.2)

lemma foldl_error_counters {A : Type} (step : Nat × Nat → A → Nat × Nat)
    (cmp mis : A → Bool)
    (hstep : ∀ (acc : Nat × Nat) (x : A),
      step acc x = ((if mis x then acc.1 + 1 else acc.1),
                    if cmp x then acc.2 + 1 else acc.2)) :
    ∀ (l : List A) (a b : Nat),
      l.foldl step (a, b) = (a + l.countP mis, b + l.countP cmp) := by
  intro l
  induction l with
  | nil => intro a b; simp
  | cons x l' ih =>
    intro a b
    rw [List.foldl_cons, hstep, ih]
    cases hm : mis x <;> cases hc : cmp x <;>
      simp [List.countP_cons, hm, hc, Prod.ext_iff] <;> omega

lemma bb84_estimate_eq_countP (host : StudentQuantumHost) (ps rs : List Nat) :
    bb84_estimate_error_rate host ps rs
      = if 0 < (ps.zip rs).countP (bb84_comparable host)
        then ((ps.zip rs).countP (bb84_mismatch host) : ℚ)
            / ((ps.zip rs).countP (bb84_comparable host) : ℚ)
        else 0 := by
  have hstep : ∀ (acc : Nat × Nat) (pr : Nat × Nat),
      (if pr.1 < host.measurement_outcomes.length then
        ((if host.measurement_outcomes.getD pr.1 0 ≠ pr.2 then acc.1 + 1 else acc.1),
          acc.2 + 1)
      else if pr.1 < host.random_bits.length then
        ((if host.random_bits.getD pr.1 0 ≠ pr.2 then acc.1 + 1 else acc.1),
          acc.2 + 1)
      else acc)
      = ((if bb84_mismatch host pr then acc.1 + 1 else acc.1),
          if bb84_comparable host pr then acc.2 + 1 else acc.2) := by
    intro acc pr
    by_cases h1 : pr.1 < host.measurement_outcomes.length <;>
      by_cases h2 : pr.1 < host.random_bits.length <;>
        simp [bb84_comparable, bb84_mismatch, h1, h2]
  have h := foldl_error_counters _ (bb84_comparable host) (bb84_mismatch host)
    (fun acc pr => hstep acc pr) (ps.zip rs) 0 0
  simp only [bb84_estimate_error_rate]
  rw [h]
  simp only [Nat.zero_add]

lemma b92_estimate_eq_countP (host : StudentB92Host) (ps rs : List Nat) :
    b92_estimate_error_rate host ps rs
      = if ps = [] ∨ rs = [] then 0
        else if 0 < (ps.zip rs).countP (b92_comparable host)
        then ((ps.zip rs).countP (b92_mismatch host) : ℚ)
            / ((ps.zip rs).countP (b92_comparable host) : ℚ)
        else 0 := by
  have hstep : ∀ (acc : Nat × Nat) (pr : Nat × Nat),
      (if pr.1 < host.sifted_key.length then
        ((if host.sifted_key.getD pr.1 0 ≠ pr.2 then acc.1 + 1 else acc.1),
          acc.2 + 1)
      else acc)
      = ((if b92_mismatch host pr then acc.1 + 1 else acc.1),
          if b92_comparable host pr then acc.2 + 1 else acc.2) := by
    intro acc pr
    by_cases h1 : pr.1 < host.sifted_key.length <;>
      simp [b92_comparable, b92_mismatch, h1]
  have h := foldl_error_counters _ (b92_comparable host) (b92_mismatch host)
    (fun acc pr => hstep acc pr) (ps.zip rs) 0 0
  by_cases hemp : ps = [] ∨ rs = []
  · simp [b92_estimate_error_rate, hemp]
  · simp only [b92_estimate_error_rate, if_neg hemp]
    rw [h]
    simp only [Nat.zero_add]

/-- Claim C5 — both error-rate estimators return the ratio of mismatches to
comparisons over the sampled positions that have a recorded value (0 when no
comparison is possible); both return 0 on empty input; and both are invariant
under any permutation applied jointly to the (position, reference) pairs of
length-matched sample data. -/
theorem estimate_error_rate_ratio_empty_perm :
    (∀ (host : StudentQuantumHost) (ps rs : List Nat),
      bb84_estimate_error_rate host ps rs
        = if 0 < (ps.zip rs).countP (bb84_comparable host)
          then ((ps.zip rs).countP (bb84_mismatch host) : ℚ)
              / ((ps.zip rs).countP (bb84_comparable host) : ℚ)
          else 0)
    ∧ (∀ (host : StudentB92Host) (ps rs : List Nat),
      b92_estimate_error_rate host ps rs
        = if ps = [] ∨ rs = [] then 0
          else if 0 < (ps.zip rs).countP (b92_comparable host)
          then ((ps.zip rs).countP (b92_mismatch host) : ℚ)
              / ((ps.zip rs).countP (b92_comparable host) : ℚ)
          else 0)
    ∧ (∀ (h1 : StudentQuantumHost) (h2 : StudentB92Host),
        bb84_estimate_error_rate h1 [] [] = 0 ∧ b92_estimate_error_rate h2 [] [] = 0)
    ∧ (∀ (host : StudentQuantumHost) (ps rs ps' rs' : List Nat),
        ps.length = rs.length → ps'.length = rs'.length →
        (ps.zip rs).Perm (ps'.zip rs') →
        bb84_estimate_error_rate host ps rs = bb84_estimate_error_rate host ps' rs')
    ∧ (∀ (host : StudentB92Host) (ps rs ps' rs' : List Nat),
        ps.length = rs.length → ps'.length = rs'.length →
        (ps.zip rs).Perm (ps'.zip rs') →
        b92_estimate_error_rate host ps rs = b92_estimate_error_rate host ps' rs') := by
  refine ⟨bb84_estimate_eq_countP, b92_estimate_eq_countP, ?_, ?_, ?_⟩
  · intro h1 h2
    exact ⟨by simp [bb84_estimate_eq_countP], by simp [b92_estimate_eq_countP]⟩
  · intro host ps rs ps' rs' _ _ hperm
    rw [bb84_estimate_eq_countP, bb84_estimate_eq_countP,
      hperm.countP_eq, hperm.countP_eq]
  · intro host ps rs ps' rs' _ _ hperm
    have he : (ps = [] ∨ rs = []) ↔ (ps' = [] ∨ rs' = []) := by
      rw [← List.zip_eq_nil_iff, ← List.zip_eq_nil_iff]
      constructor
      · intro h0
        have h1 := hperm.symm
        rw [h0] at h1
        exact List.Perm.eq_nil h1
      · intro h0
        have h1 := hperm
        rw [h0] at h1
        exact List.Perm.eq_nil h1
    rw [b92_estimate_eq_countP, b92_estimate_eq_countP]
    by_cases hemp : ps = [] ∨ rs = []
    · rw [if_pos hemp, if_pos (he.mp hemp)]
    · rw [if_neg hemp, if_neg (fun hc => hemp (he.mpr hc)),
        hperm.countP_eq, hperm.countP_eq]

/-- Witness for C5: the B92 permutation-invariance component applied to a
concrete host and a swap of two (position, reference) pairs. -/
theorem estimate_error_rate_ratio_empty_perm_witness :
    b92_estimate_error_rate
        { StudentB92Host.init with sifted_key := [1, 0] } [0, 1] [1, 0]
      = b92_estimate_error_rate
        { StudentB92Host.init with sifted_key := [1, 0] } [1, 0] [0, 1] :=
  estimate_error_rate_ratio_empty_perm.2.2.2.2
    { StudentB92Host.init with sifted_key := [1, 0] }
    [0, 1] [1, 0] [1, 0] [0, 1] rfl rfl (List.Perm.swap (1, 0) (0, 1) [])

lemma channel_loss_prob_all_lost :
    channel_loss_prob (quantum_channel_init 0 1 1 1 "none") = 1 := by
  simp [channel_loss_prob, quantum_channel_init, Real.rpow_one]

/-- Counterexample for C3 — the claim predicts that with p_loss = 1 and r = 0
the transmit call raises QubitLost whatever the noise model; but with
noise_model "none" the code skips the loss sampling entirely: the qubit is
delivered and the lost outcome is impossible, even though r < p_loss holds. -/
theorem transmit_skips_loss_sampling_when_noise_none :
    (0 : ℝ) < channel_loss_prob (quantum_channel_init 0 1 1 1 "none")
    ∧ TransmitStep true (quantum_channel_init 0 1 1 1 "none") 0 .plus 0
        (.delivered 1 .plus)
    ∧ ¬ TransmitStep true (quantum_channel_init 0 1 1 1 "none") 0 .plus 0 .lost := by
  refine ⟨?_, ?_, ?_⟩
  · rw [channel_loss_prob_all_lost]
    norm_num
  · exact TransmitStep.no_noise_path (Or.inl rfl)
  · intro h
    cases h with
    | qubit_lost hn _ _ => exact hn rfl

/-- Claim C3 as amended — the loss sampling and noise application happen only
when a noise model other than "none" is configured and QuTiP is available: in
that case the qubit is lost exactly when r < p_loss with
p_loss = 1 - (1 - loss_per_km) ^ length_km, and otherwise noise is applied and
the result delivered to the peer; with noise model "none" (or QuTiP missing)
every transmit call skips the loss draw and delivers the qubit unchanged. -/
theorem transmit_loss_sampling_characterization
    (qa : Bool) (c : QuantumChannel) (f : Nat) (q : QState) (r : ℝ)
    (res : TransmitResult) :
    (c.noise_model = "none" ∨ qa = false →
      (TransmitStep qa c f q r res
        ↔ res = .delivered (channel_other_node c f) q))
    ∧ (c.noise_model ≠ "none" → qa = true →
      (TransmitStep qa c f q r res
        ↔ ((r < channel_loss_prob c ∧ res = .lost)
            ∨ (¬ r < channel_loss_prob c
                ∧ res = .delivered (channel_other_node c f)
                    (channel_apply_noise c q))))) := by
  constructor
  · intro hnone
    constructor
    · intro h
      cases h with
      | no_noise_path h0 => rfl
      | qubit_lost hn hqa _ =>
        rcases hnone with h0 | h0
        · exact absurd h0 hn
        · rw [h0] at hqa; cases hqa
      | noisy_delivered hn hqa _ =>
        rcases hnone with h0 | h0
        · exact absurd h0 hn
        · rw [h0] at hqa; cases hqa
    · intro h
      rw [h]
      exact TransmitStep.no_noise_path hnone
  · intro hn hqa
    constructor
    · intro h
      cases h with
      | no_noise_path h0 =>
        rcases h0 with h0 | h0
        · exact absurd h0 hn
        · rw [hqa] at h0; cases h0
      | qubit_lost _ _ hr => exact Or.inl ⟨hr, rfl⟩
      | noisy_delivered _ _ hr => exact Or.inr ⟨hr, rfl⟩
    · intro h
      rcases h with ⟨hr, hres⟩ | ⟨hr, hres⟩ <;> rw [hres]
      · exact TransmitStep.qubit_lost hn hqa hr
      · exact TransmitStep.noisy_delivered hn hqa hr

lemma channel_loss_prob_zero_length :
    channel_loss_prob (quantum_channel_init 0 1 0 0 "depolarizing") = 0 := by
  simp [channel_loss_prob, quantum_channel_init, Real.rpow_natCast]

/-- Witness for C3 (amended): a configured depolarizing channel of zero length
has p_loss = 0, so the draw r = 1/2 is not below it and the qubit is delivered
through the noise path. -/
theorem transmit_loss_sampling_characterization_witness :
    TransmitStep true (quantum_channel_init 0 1 0 0 "depolarizing") 0 .zero
      ((1 : ℝ) / 2) (.delivered 1 .zero) :=
  ((transmit_loss_sampling_characterization true
      (quantum_channel_init 0 1 0 0 "depolarizing") 0 .zero ((1 : ℝ) / 2)
      (.delivered 1 .zero)).2
    (by simp [quantum_channel_init]) rfl).mpr
    (Or.inr ⟨by rw [channel_loss_prob_zero_length]; norm_num, rfl⟩)

/-- Counterexample for C6 — the claim predicts that loss_per_km = 2 (outside
the unit interval) and length = -5 are rejected with a fatal error at
construction; but the constructor stores both values verbatim and the channel
can go on to transmit. -/
theorem channel_init_accepts_invalid_config :
    (quantum_channel_init 0 1 (-5) 2 "none").loss_per_km = 2
    ∧ (quantum_channel_init 0 1 (-5) 2 "none").length = -5
    ∧ TransmitStep true (quantum_channel_init 0 1 (-5) 2 "none") 0 .zero 0
        (.delivered 1 .zero) :=
  ⟨rfl, rfl, TransmitStep.no_noise_path (Or.inl rfl)⟩

/-- Claim C6 as amended — QuantumChannel construction performs no validation:
every parameter combination, including loss_per_km outside the unit interval
and negative lengths, is accepted and stored field-for-field, and transmit is
defined (reaches an outcome) for every constructed channel. -/
theorem channel_init_stores_params_unvalidated :
    (∀ (n1 n2 : Nat) (len loss : ℚ) (nm : String) (ns ert : ℚ) (nb : Nat),
      quantum_channel_init n1 n2 len loss nm ns ert nb
        = { node_1 := n1, node_2 := n2, length := len, loss_per_km := loss,
            noise_model := nm, noise_strength := ns,
            error_rate_threshold := ert, num_bits := nb })
    ∧ (∀ (qa : Bool) (c : QuantumChannel) (f : Nat) (q : QState) (r : ℝ),
        ∃ res, TransmitStep qa c f q r res) := by
  constructor
  · intro n1 n2 len loss nm ns ert nb
    rfl
  · intro qa c f q r
    by_cases hn : c.noise_model = "none"
    · exact ⟨_, TransmitStep.no_noise_path (Or.inl hn)⟩
    · cases qa with
      | false => exact ⟨_, TransmitStep.no_noise_path (Or.inr rfl)⟩
      | true =>
        by_cases hr : r < channel_loss_prob c
        · exact ⟨_, TransmitStep.qubit_lost hn rfl hr⟩
        · exact ⟨_, TransmitStep.noisy_delivered hn rfl hr⟩

/-- A B92 host that carries data from a completed previous run in every
collection. -/
def staleB92Host : StudentB92Host :=
  { sent_bits := [1]
    qubits := [.plus]
    received_measurements := [(1, .Z)]
    sifted_key := [1]
    random_bits := [1]
    measurement_outcomes := [1]
    received_bases := [.Z] }

/-- A BB84 host that carries receiver-side data from a previous run. -/
def staleBB84Host : StudentQuantumHost :=
  { random_bits := [1]
    measurement_bases := [.X]
    quantum_states := [.minus]
    received_bases := [.X]
    measurement_outcomes := [0] }

/-- Claim C7 evaluated at the failing input — starting a new run's send phase
does not empty the protocol record: b92_send_qubits leaves the previous run's
sifted_key, received_measurements, measurement_outcomes and received_bases in
place, and bb84_send_qubits leaves the previous run's received_bases and
measurement_outcomes in place.  This demonstrates the stale-state bug the
spec documents (§9): only the sender-side collections are reinitialized. -/
theorem send_qubits_leaves_stale_record :
    (∃ st qs, b92_send_qubits staleB92Host [false] = some (st, qs)
      ∧ st.sifted_key = [1] ∧ st.received_measurements = [(1, .Z)]
      ∧ st.measurement_outcomes = [1] ∧ st.received_bases = [.Z])
    ∧ (bb84_send_qubits staleBB84Host [(false, .Z)]).1.received_bases = [.X]
    ∧ (bb84_send_qubits staleBB84Host [(false, .Z)]).1.measurement_outcomes = [0] := by
  exact ⟨⟨_, _, rfl, rfl, rfl, rfl, rfl⟩, rfl, rfl⟩

/-- Sequence of emit_b92_event calls folded over a list of events. -/
def emit_all (run : L → α → Except String Unit)
    (m : B92WorldEventManager L α) (es : List α) : B92WorldEventManager L α :=
  es.foldl (fun acc e => (emit_b92_event run acc e).1) m

lemma emit_all_history (run : L → α → Except String Unit) :
    ∀ (es : List α) (m : B92WorldEventManager L α),
      (emit_all run m es).event_history
        = es.foldl (fun h e => emit_history h m.max_history_size e)
            m.event_history := by
  intro es
  induction es with
  | nil => intro m; rfl
  | cons e es' ih =>
    intro m
    exact ih ((emit_b92_event run m e).1)

lemma emit_history_foldl :
    ∀ (es hist : List α) (maxH : Nat), hist.length ≤ maxH →
      es.foldl (fun h e => emit_history h maxH e) hist
        = (hist ++ es).drop ((hist ++ es).length - maxH) := by
  intro es
  induction es with
  | nil =>
    intro hist maxH h
    simp [Nat.sub_eq_zero_of_le h]
  | cons e es' ih =>
    intro hist maxH h
    rw [List.foldl_cons]
    by_cases hlt : maxH < (hist ++ [e]).length
    · have hh : emit_history hist maxH e = (hist ++ [e]).tail := by
        show (if maxH < (hist ++ [e]).length then (hist ++ [e]).tail
          else hist ++ [e]) = (hist ++ [e]).tail
        rw [if_pos hlt]
      have hlen : (hist ++ [e]).tail.length ≤ maxH := by
        simp only [List.length_tail, List.length_append, List.length_cons,
          List.length_nil]
        omega
      rw [hh, ih _ _ hlen]
      have htail : (hist ++ [e]).tail ++ es' = (hist ++ e :: es').tail := by
        cases hist with
        | nil => simp
        | cons x xs => simp
      have heq : hist.length = maxH := by
        simp only [List.length_append, List.length_cons, List.length_nil] at hlt
        omega
      have hTlen : ((hist ++ e :: es').tail).length - maxH = es'.length := by
        simp only [List.length_tail, List.length_append, List.length_cons]
        omega
      have hLlen : (hist ++ e :: es').length - maxH = es'.length + 1 := by
        simp only [List.length_append, List.length_cons]
        omega
      rw [htail, hTlen, hLlen, ← List.drop_one, List.drop_drop,
        Nat.add_comm 1 es'.length]
    · have hh : emit_history hist maxH e = hist ++ [e] := by
        show (if maxH < (hist ++ [e]).length then (hist ++ [e]).tail
          else hist ++ [e]) = hist ++ [e]
        rw [if_neg hlt]
      have hlen : (hist ++ [e]).length ≤ maxH := by omega
      rw [hh, ih _ _ hlen, List.append_assoc]
      rfl

/-- Counterexample for C8 — the claim predicts get_recent_events k returns the
last min(k, current length) events, hence for k = 0 on a one-event history
the empty list; but the Python slice [-0:] is the whole list, so the code
returns the full history. -/
theorem get_recent_events_zero_returns_all :
    get_recent_events
      { event_listeners := ([] : List Unit), event_history := [7],
        max_history_size := 1000 } 0 = [7]
    ∧ (get_recent_events
        { event_listeners := ([] : List Unit), event_history := [7],
          max_history_size := 1000 } 0).length
      ≠ min 0 [7].length := by
  exact ⟨rfl, by decide⟩

/-- Claim C8 as amended — after emitting a sequence of events into a manager
with an empty history, the history holds exactly the most recent
min(n, max_history_size) events in emission order (the oldest is dropped on
overflow); and get_recent_events k, for every k ≥ 1, returns the last
min(k, current length) events in original order.  For k = 0 the code instead
returns the whole history (see the counterexample). -/
theorem event_history_ring_buffer_spec (L α : Type) :
    (∀ (run : L → α → Except String Unit) (m0 : B92WorldEventManager L α)
        (es : List α),
      m0.event_history = [] →
      (emit_all run m0 es).event_history
          = es.drop (es.length - m0.max_history_size)
        ∧ (emit_all run m0 es).event_history.length
          = min es.length m0.max_history_size)
    ∧ (∀ (m : B92WorldEventManager L α) (k : Nat), 1 ≤ k →
      get_recent_events m k
          = m.event_history.drop (m.event_history.length - k)
        ∧ (get_recent_events m k).length = min k m.event_history.length) := by
  constructor
  · intro run m0 es h0
    have h1 : (emit_all run m0 es).event_history
        = es.drop (es.length - m0.max_history_size) := by
      rw [emit_all_history, h0, emit_history_foldl es [] m0.max_history_size
        (by simp)]
      simp
    refine ⟨h1, ?_⟩
    rw [h1]
    simp only [List.length_drop]
    omega
  · intro m k hk
    have hk0 : ¬ k = 0 := by omega
    by_cases hemp : m.event_history.isEmpty
    · have he : m.event_history = [] := by
        cases hm : m.event_history with
        | nil => rfl
        | cons x xs => rw [hm] at hemp; simp [List.isEmpty] at hemp
      constructor
      · simp [get_recent_events, hemp, he]
      · simp [get_recent_events, hemp, he]
    · constructor
      · simp [get_recent_events, hemp, hk0]
      · simp only [get_recent_events, hemp, hk0]
        simp only [Bool.false_eq_true, if_false, List.length_drop]
        omega

/-- Witness for C8 (amended): on a two-event history, get_recent_events 1
returns just the newest event. -/
theorem event_history_ring_buffer_spec_witness :
    get_recent_events
      { event_listeners := ([] : List Unit), event_history := [7, 8],
        max_history_size := 1000 } 1 = [8] :=
  ((event_history_ring_buffer_spec Unit Nat).2
    { event_listeners := ([] : List Unit), event_history := [7, 8],
      max_history_size := 1000 } 1 (by decide)).1.trans rfl

/-- A listener behaviour where listener 0 raises and every other listener
returns normally. -/
def boomRun : Nat → Nat → Except String Unit :=
  fun l _ => if l = 0 then .error "boom" else .ok ()

/-- Counterexample for C9 — the claim predicts the throwing subscriber is
dropped from the listener list; but after the emit both listeners are still
subscribed: the failure is only logged ("boom" for listener 0, delivery to
listener 1 still happening) and the listener list is unchanged, not [1]. -/
theorem failing_listener_not_dropped :
    (emit_b92_event boomRun
      { event_listeners := [0, 1], event_history := ([] : List Nat),
        max_history_size := 1000 } 5).1.event_listeners = [0, 1]
    ∧ (emit_b92_event boomRun
        { event_listeners := [0, 1], event_history := ([] : List Nat),
          max_history_size := 1000 } 5).2 = [(0, some "boom"), (1, none)]
    ∧ (emit_b92_event boomRun
        { event_listeners := [0, 1], event_history := ([] : List Nat),
          max_history_size := 1000 } 5).1.event_listeners ≠ [1] := by
  exact ⟨rfl, rfl, by decide⟩

/-- Claim C9 as amended — emit fan-out attempts delivery to every current
subscriber in order, whatever any listener does: a raised exception is caught
and logged (the some entries of the log), it never propagates to the emitter
(emit_b92_event is total), and the listener list is left unchanged — the
failing subscriber is neither retried within the emit nor dropped. -/
theorem emit_fanout_delivers_to_all (L α : Type)
    (run : L → α → Except String Unit) (m : B92WorldEventManager L α) (e : α) :
    ((emit_b92_event run m e).2.map Prod.fst = m.event_listeners)
    ∧ ((emit_b92_event run m e).1.event_listeners = m.event_listeners)
    ∧ (∀ l, l ∈ m.event_listeners →
        (l, match run l e with
            | .ok _ => none
            | .error msg => some msg) ∈ (emit_b92_event run m e).2) := by
  refine ⟨?_, rfl, ?_⟩
  · simp [emit_b92_event, Function.comp_def]
  · intro l hl
    simp only [emit_b92_event, List.mem_map]
    exact ⟨l, hl, rfl⟩

/-- Witness for C9 (amended): listener 0's failing delivery is attempted and
logged in the concrete two-listener scenario. -/
theorem emit_fanout_delivers_to_all_witness :
    ((0 : Nat), some "boom") ∈ (emit_b92_event boomRun
      { event_listeners := [0, 1], event_history := ([] : List Nat),
        max_history_size := 1000 } 5).2 :=
  (emit_fanout_delivers_to_all Nat Nat boomRun
    { event_listeners := [0, 1], event_history := ([] : List Nat),
      max_history_size := 1000 } 5).2.2 0 (by decide)

end QSim
